import Mathlib

/-!
Verification of the selection/persistence core of CaptionIMG
(`src/CaptionIMG.py`), a PySide6 tool that browses images and edits a
sibling `.txt` caption per image.  The Python source is shallowly
embedded: the Qt list widget is a list of item names plus a current-row
integer (`-1` = no selection, as in Qt), the filesystem is an
association list from caption-file path to stored text, and the two
nondeterministic external inputs — the answer to the unsaved-changes
prompt and whether a caption write succeeds — are explicit parameters.
Unicode-only behaviours (`str.isdigit`/`str.lower` beyond ASCII) and
`pathlib` normalization of exotic paths (trailing slashes, empty names)
are modelled in their ASCII / plain-path form, which is exact for the
paths produced by the file dialog.
-/

/-! ### Natural sort (`natural_sort`, CaptionIMG.py lines 33-46)

`natural_sort` sorts paths with Python's stable `sorted` keyed by
`alphanum_key`: the basename is split by `re.split("([0-9]+)", ...)`
into alternating non-digit / digit runs, digit runs become integers and
non-digit runs are lower-cased.  Python's `sorted` is a stable sort with
respect to `key x <= key y`; any stable sort agrees with it, so we model
it with `List.insertionSort` (which is stable) over the same key order.
-/

/-- A token of the alphanum sort key: an integer run or a lower-cased
text run (`convert` in the source). -/
inductive NTok where
  | num (n : Nat)
  | str (s : String)
deriving DecidableEq

/-- Python's lexicographic `<` on sequences, generic in the element
comparison: the first non-equal pair decides, else the shorter sequence
is smaller. -/
def lexLtb {α : Type} [DecidableEq α] (ltb : α → α → Bool) :
    List α → List α → Bool
  | _, [] => false
  | [], _ :: _ => true
  | a :: as, b :: bs => ltb a b || (decide (a = b) && lexLtb ltb as bs)

/-- Python `<` on characters: code-point comparison. -/
def charLtb (a b : Char) : Bool := decide (a < b)

/-- Python string `<`: lexicographic on the code-point sequence. -/
def strLtb (a b : List Char) : Bool := lexLtb charLtb a b

/-- Strict comparison of two key tokens, as Python `<` compares them.
Integers compare numerically, strings by code point.  A mixed pair never
occurs at a compared position (keys alternate string/int in lockstep);
the `num < str` convention makes the order total in the model. -/
def ntokLtb : NTok → NTok → Bool
  | .num a, .num b => decide (a < b)
  | .str a, .str b => strLtb a.data b.data
  | .num _, .str _ => true
  | .str _, .num _ => false

/-- Python list comparison (lexicographic) on key token lists. -/
def keyLtb (a b : List NTok) : Bool := lexLtb ntokLtb a b

/-- POSIX `os.path.basename`: the text after the last slash. -/
def basename (p : String) : String :=
  String.mk ((p.data.reverse.takeWhile (fun c => c ≠ '/')).reverse)

/-- Maximal runs of characters grouped by `Char.isDigit`, each tagged
with whether it is a digit run. -/
def groupRuns : List Char → List (Bool × List Char)
  | [] => []
  | c :: cs =>
    match groupRuns cs with
    | [] => [(c.isDigit, [c])]
    | (b, run) :: rest =>
      if c.isDigit = b then (b, c :: run) :: rest
      else (c.isDigit, [c]) :: (b, run) :: rest

/-- Shape the tagged runs like `re.split("([0-9]+)", s)`: the result
alternates non-digit, digit, non-digit, ..., beginning and ending with a
(possibly empty) non-digit piece.  The flag says whether a digit run is
expected next. -/
def altParts : Bool → List (Bool × List Char) → List (List Char)
  | false, [] => [[]]
  | true, [] => []
  | false, (false, r) :: rest => r :: altParts true rest
  | false, (true, r) :: rest => [] :: r :: altParts false rest
  | true, (true, r) :: rest => r :: altParts false rest
  | true, (false, r) :: rest => r :: altParts true rest

/-- Decimal value of a digit run (`int(text)`). -/
def digitsToNat (run : List Char) : Nat :=
  run.foldl (fun n c => n * 10 + (c.toNat - '0'.toNat)) 0

/-- The source's `convert`: `int(text) if text.isdigit() else
text.lower()` (ASCII model of `isdigit`/`lower`). -/
def convert (run : List Char) : NTok :=
  if run ≠ [] ∧ run.all Char.isDigit then .num (digitsToNat run)
  else .str (String.mk (run.map Char.toLower))

/-- The source's `alphanum_key`: split the basename into alternating
runs and convert each piece. -/
def alphanum_key (p : String) : List NTok :=
  (altParts false (groupRuns (basename p).data)).map convert

/-- The key order used by `sorted(paths, key=alphanum_key)`:
`p` precedes-or-ties `q` when `key q` is not strictly below `key p`. -/
def natLe (p q : String) : Prop :=
  keyLtb (alphanum_key q) (alphanum_key p) = false

instance : DecidableRel natLe := fun _ _ => by
  unfold natLe; infer_instance

/-- The source's `natural_sort`: Python's stable sort by
`alphanum_key`, modelled by the (stable) insertion sort. -/
def natural_sort (paths : List String) : List String :=
  List.insertionSort natLe paths

/-! ### Caption Store (`_load_caption` / `save_caption`)

Captions live at `path.with_suffix(".txt")`.  The filesystem is an
association list from file path to the raw text stored in the file.
`Path.write_text` on POSIX writes the string verbatim (`os.linesep` is
`"\n"`, so the newline translation of text mode is the identity on
write); `Path.read_text` opens in universal-newline mode, which
translates `"\r\n"` and lone `"\r"` to `"\n"` while reading. -/

/-- Model of `Path.with_suffix(".txt")`: replace the suffix of the final path
component (the last dot-run, provided the dot is neither the first nor
the last character of the name) by `".txt"`; if the name has no suffix,
append `".txt"`. -/
def withSuffixTxt (p : String) : String :=
  let revc := p.data.reverse
  let revName := revc.takeWhile (fun c => c ≠ '/')
  let revDir := revc.dropWhile (fun c => c ≠ '/')
  let n := revName.length
  let revTxt := ".txt".data.reverse
  let newRevName :=
    match revName.findIdx? (fun c => c = '.') with
    | some k =>
      if 0 < k ∧ k < n - 1 then revTxt ++ revName.drop (k + 1)
      else revTxt ++ revName
    | none => revTxt ++ revName
  String.mk ((newRevName ++ revDir).reverse)

/-- Association-list lookup (`dict.get`). -/
def lookupAssoc (m : List (String × String)) (k : String) : Option String :=
  match m with
  | [] => none
  | (k', v) :: rest => if k' = k then some v else lookupAssoc rest k

/-- Association-list store (`dict[k] = v` / overwriting file write):
replaces an existing binding, else appends. -/
def insertAssoc (m : List (String × String)) (k v : String) : List (String × String) :=
  match m with
  | [] => [(k, v)]
  | (k', v') :: rest =>
    if k' = k then (k, v) :: rest else (k', v') :: insertAssoc rest k v

/-- Universal-newline translation performed by a text-mode read:
`"\r\n"` and lone `"\r"` become `"\n"`. -/
def univNewlines : List Char → List Char
  | [] => []
  | [c] => [if c = '\r' then '\n' else c]
  | c1 :: c2 :: rest =>
    if c1 = '\r' then
      if c2 = '\n' then '\n' :: univNewlines rest
      else '\n' :: univNewlines (c2 :: rest)
    else c1 :: univNewlines (c2 :: rest)

/-! ### Session state (`CaptionIMGMain`)

The state carries exactly the mutable pieces of the Python object plus
the modelled collaborators: the list widget (item names in row order and
the current row, `-1` when nothing is current, as in Qt), the
name-to-path `file_map`, the current image name/path, the caption editor
text, the `unsaved` flag, and the filesystem. -/

structure AppState where
  items : List String
  fileMap : List (String × String)
  currentRow : Int
  currentImageName : Option String
  currentImagePath : Option String
  bufferText : String
  unsaved : Bool
  fs : List (String × String)
deriving DecidableEq

/-- The three answers of the unsaved-changes `QMessageBox.question`. -/
inductive PromptAnswer where
  | yes
  | no
  | cancel
deriving DecidableEq

/-- Item text at a widget row: `None` when the row is out of range. -/
def itemAt (items : List String) (r : Int) : Option String :=
  if r < 0 then none else items.get? r.toNat

/-- The row a `setCurrentRow(j)` call actually lands on: `j` when it is
a valid row, otherwise `-1` (Qt clears the selection for an invalid
row). -/
def normRow (items : List String) (j : Int) : Int :=
  if 0 ≤ j ∧ j < (items.length : Int) then j else -1

/-- Model of `setCurrentRow` under `blockSignals(True)`: the row changes (with
Qt's invalid-row normalization) and no handler runs. -/
def setRowBlocked (st : AppState) (j : Int) : AppState :=
  { st with currentRow := normRow st.items j }

/-- The source's `save_caption` (lines 226-243).  Writes the caption editor text to
the current image's derived `.txt` path; `writeOk` models whether the
filesystem write raises.  Returns the `bool` result with the new
state. -/
def save_caption (st : AppState) (writeOk : Bool) : Bool × AppState :=
  match st.currentImagePath with
  | none => (false, st)
  | some p =>
    if writeOk then
      (true, { st with fs := insertAssoc st.fs (withSuffixTxt p) st.bufferText,
                       unsaved := false })
    else (false, st)

/-- The source's `_load_caption` (lines 209-224): read the derived caption file
(empty string when absent), put it in the editor with signals blocked,
clear `unsaved`. -/
def load_caption (st : AppState) (p : String) : AppState :=
  let text :=
    match lookupAssoc st.fs (withSuffixTxt p) with
    | some raw => String.mk (univNewlines raw.data)
    | none => ""
  { st with bufferText := text, unsaved := false }

/-- The source's `_on_text_changed` (lines 245-246): any `textChanged` signal sets
`unsaved`. -/
def on_text_changed (st : AppState) : AppState :=
  { st with unsaved := true }

/-- The `EditBuffer` event: the editor widget updates its text and emits
`textChanged`, which runs `_on_text_changed`. -/
def editBuffer (st : AppState) (t : String) : AppState :=
  on_text_changed { st with bufferText := t }

/-- The source's `_clear_image_and_caption` (lines 257-263): `caption_edit.clear()`
fires `textChanged` (signals are not blocked there), then the current
image fields are dropped and `unsaved` is reset. -/
def clear_image_and_caption (st : AppState) : AppState :=
  let st := on_text_changed { st with bufferText := "" }
  { st with currentImageName := none, currentImagePath := none, unsaved := false }

/-- Lines 168-181 of `_on_selection_changed`: the code after the guard.
If there is no current item, clear; if the item's text is not a key of
`file_map`, return with nothing else changed; otherwise record the new
current image, display it (no state effect) and load its caption. -/
def selection_proceed (st : AppState) (current? : Option String) : AppState :=
  match current? with
  | none => clear_image_and_caption st
  | some name =>
    match lookupAssoc st.fileMap name with
    | none => st
    | some path =>
      load_caption { st with currentImageName := some name,
                             currentImagePath := some path } path

/-- The source's `_on_selection_changed` (lines 139-183).  `current?`/`previous?`
are the item texts Qt passes; `prevRow` is `list_widget.row(previous)`.
`ans` is the user's answer if the unsaved-changes prompt fires, and
`writeOk` whether a caption write would succeed. -/
def on_selection_changed (st : AppState) (current? previous? : Option String)
    (prevRow : Int) (ans : PromptAnswer) (writeOk : Bool) : AppState :=
  if previous?.isSome && st.unsaved then
    match ans with
    | .cancel => setRowBlocked st prevRow
    | .yes =>
      match save_caption st writeOk with
      | (true, st') => selection_proceed st' current?
      | (false, st') => setRowBlocked st' prevRow
    | .no => selection_proceed { st with unsaved := false } current?
  else selection_proceed st current?

/-- Model of `list_widget.setCurrentRow(j)` with signals enabled: normalize the
row, and when the current item actually changes, emit
`currentItemChanged(current, previous)` into the handler. -/
def setCurrentRow (st : AppState) (j : Int) (ans : PromptAnswer) (writeOk : Bool) :
    AppState :=
  let j' := normRow st.items j
  if j' = st.currentRow then st
  else
    let previous? := itemAt st.items st.currentRow
    let current? := itemAt st.items j'
    on_selection_changed { st with currentRow := j' } current? previous?
      st.currentRow ans writeOk

/-- Model of `list_widget.clear()`: all rows vanish and, when an item was
current, Qt emits `currentItemChanged(None, previousItem)` (the removed
item is no longer in the widget, so `row(previous)` is `-1`-like: the
revert branches normalize it away on the now-empty list). -/
def listClear (st : AppState) (ans : PromptAnswer) (writeOk : Bool) : AppState :=
  let previous? := itemAt st.items st.currentRow
  let st1 := { st with items := [], currentRow := -1 }
  if previous?.isSome then
    on_selection_changed st1 none previous? st.currentRow ans writeOk
  else st1

/-- The source's `open_images` (lines 115-137) after a non-cancelled dialog returning
`selected`: sort, rebuild `file_map` keyed by `Path(fp).name` (modelled
as the POSIX basename) with later paths overwriting earlier ones, add
one row per path, and select row 0.  An empty selection returns
immediately. -/
def open_images (st : AppState) (selected : List String) (ans : PromptAnswer)
    (writeOk : Bool) : AppState :=
  if selected.isEmpty then st
  else
    let sorted := natural_sort selected
    let st := { st with fileMap := [] }
    let st := listClear st ans writeOk
    let st := { st with
      fileMap := sorted.foldl (fun m fp => insertAssoc m (basename fp) fp) [],
      items := sorted.map basename }
    if 0 < st.items.length then setCurrentRow st 0 ans writeOk else st

/-- The source's `_navigate` (lines 248-255): clamp `currentRow + step` to the valid
range and change the selection only when the clamped target differs. -/
def navigate (st : AppState) (step : Int) (ans : PromptAnswer) (writeOk : Bool) :
    AppState :=
  if (st.items.length : Int) = 0 then st
  else
    let current_row := st.currentRow
    let new_row := max 0 (min (current_row + step) ((st.items.length : Int) - 1))
    if new_row ≠ current_row then setCurrentRow st new_row ans writeOk else st

/-! ### Example states used by the witness theorems -/

/-- A two-image session with a dirty buffer, image `a.png` current, and
a caption file on disk for `b.png`. -/
def exSt : AppState :=
  { items := ["a.png", "b.png"],
    fileMap := [("a.png", "d/a.png"), ("b.png", "d/b.png")],
    currentRow := 0,
    currentImageName := some "a.png",
    currentImagePath := some "d/a.png",
    bufferText := "hello",
    unsaved := true,
    fs := [("d/b.txt", "bcap")] }

/-- The freshly started session: nothing loaded, nothing selected. -/
def emptySt : AppState :=
  { items := [],
    fileMap := [],
    currentRow := -1,
    currentImageName := none,
    currentImagePath := none,
    bufferText := "",
    unsaved := false,
    fs := [] }

/-! ### Order lemmas for the sort key -/

theorem lexLtb_irrefl {α : Type} [DecidableEq α] (ltb : α → α → Bool)
    (hirr : ∀ a, ltb a a = false) : ∀ l, lexLtb ltb l l = false
  | [] => rfl
  | a :: as => by
    simp [lexLtb, hirr a, lexLtb_irrefl ltb hirr as]

theorem lexLtb_asymm {α : Type} [DecidableEq α] (ltb : α → α → Bool)
    (hirr : ∀ a, ltb a a = false)
    (hasym : ∀ a b, ltb a b = true → ltb b a = false) :
    ∀ l1 l2, lexLtb ltb l1 l2 = true → lexLtb ltb l2 l1 = false := by
  intro l1
  induction l1 with
  | nil =>
    intro l2 h
    cases l2 with
    | nil => simp [lexLtb] at h
    | cons b bs => simp [lexLtb]
  | cons a as ih =>
    intro l2 h
    cases l2 with
    | nil => simp [lexLtb] at h
    | cons b bs =>
      simp only [lexLtb, Bool.or_eq_true, Bool.and_eq_true, decide_eq_true_eq] at h
      rcases h with hab | ⟨hEq, hrec⟩
      · have h1 : ltb b a = false := hasym a b hab
        have h2 : b ≠ a := by
          rintro rfl
          rw [hirr] at hab
          exact Bool.false_ne_true hab
        simp [lexLtb, h1, h2]
      · subst hEq
        simp [lexLtb, hirr, ih bs hrec]

theorem lexLtb_trans {α : Type} [DecidableEq α] (ltb : α → α → Bool)
    (htr : ∀ a b c, ltb a b = true → ltb b c = true → ltb a c = true) :
    ∀ l1 l2 l3, lexLtb ltb l1 l2 = true → lexLtb ltb l2 l3 = true →
      lexLtb ltb l1 l3 = true := by
  intro l1
  induction l1 with
  | nil =>
    intro l2 l3 h1 h2
    cases l3 with
    | nil =>
      cases l2 with
      | nil => simp [lexLtb] at h1
      | cons b bs => simp [lexLtb] at h2
    | cons c cs => simp [lexLtb]
  | cons a as ih =>
    intro l2 l3 h1 h2
    cases l2 with
    | nil => simp [lexLtb] at h1
    | cons b bs =>
      cases l3 with
      | nil => simp [lexLtb] at h2
      | cons c cs =>
        simp only [lexLtb, Bool.or_eq_true, Bool.and_eq_true,
          decide_eq_true_eq] at h1 h2 ⊢
        rcases h1 with hab | ⟨hEq, h1r⟩
        · rcases h2 with hbc | ⟨hEq2, _⟩
          · exact Or.inl (htr a b c hab hbc)
          · subst hEq2; exact Or.inl hab
        · subst hEq
          rcases h2 with hac | ⟨hEq2, h2r⟩
          · exact Or.inl hac
          · subst hEq2; exact Or.inr ⟨rfl, ih bs cs h1r h2r⟩

theorem lexLtb_trichotomy {α : Type} [DecidableEq α] (ltb : α → α → Bool)
    (htri : ∀ a b, ltb a b = true ∨ a = b ∨ ltb b a = true) :
    ∀ l1 l2, lexLtb ltb l1 l2 = true ∨ l1 = l2 ∨ lexLtb ltb l2 l1 = true := by
  intro l1
  induction l1 with
  | nil =>
    intro l2
    cases l2 with
    | nil => exact Or.inr (Or.inl rfl)
    | cons b bs => exact Or.inl rfl
  | cons a as ih =>
    intro l2
    cases l2 with
    | nil => exact Or.inr (Or.inr rfl)
    | cons b bs =>
      rcases htri a b with hab | hEq | hba
      · exact Or.inl (by simp [lexLtb, hab])
      · subst hEq
        rcases ih bs with h | hEq2 | h
        · exact Or.inl (by simp [lexLtb, h])
        · exact Or.inr (Or.inl (by rw [hEq2]))
        · exact Or.inr (Or.inr (by simp [lexLtb, h]))
      · exact Or.inr (Or.inr (by simp [lexLtb, hba]))

theorem charLtb_irrefl (a : Char) : charLtb a a = false := by
  simp [charLtb]

theorem charLtb_asymm (a b : Char) (h : charLtb a b = true) :
    charLtb b a = false := by
  simp only [charLtb, decide_eq_true_eq] at h
  simp [charLtb, lt_asymm h]

theorem charLtb_trans (a b c : Char) (h1 : charLtb a b = true)
    (h2 : charLtb b c = true) : charLtb a c = true := by
  simp only [charLtb, decide_eq_true_eq] at h1 h2 ⊢
  exact lt_trans h1 h2

theorem charLtb_trichotomy (a b : Char) :
    charLtb a b = true ∨ a = b ∨ charLtb b a = true := by
  rcases lt_trichotomy a b with h | h | h
  · exact Or.inl (by simp [charLtb, h])
  · exact Or.inr (Or.inl h)
  · exact Or.inr (Or.inr (by simp [charLtb, h]))

theorem ntokLtb_irrefl (a : NTok) : ntokLtb a a = false := by
  cases a with
  | num n => simp [ntokLtb]
  | str s => exact lexLtb_irrefl charLtb charLtb_irrefl s.data

theorem ntokLtb_asymm (a b : NTok) (h : ntokLtb a b = true) :
    ntokLtb b a = false := by
  cases a with
  | num m =>
    cases b with
    | num n =>
      simp only [ntokLtb, decide_eq_true_eq] at h
      simp [ntokLtb, Nat.lt_asymm h]
    | str t => rfl
  | str s =>
    cases b with
    | num n => simp [ntokLtb] at h
    | str t => exact lexLtb_asymm charLtb charLtb_irrefl charLtb_asymm s.data t.data h

theorem ntokLtb_trans (a b c : NTok) (h1 : ntokLtb a b = true)
    (h2 : ntokLtb b c = true) : ntokLtb a c = true := by
  cases a with
  | num m =>
    cases b with
    | num n =>
      cases c with
      | num p =>
        simp only [ntokLtb, decide_eq_true_eq] at h1 h2 ⊢
        exact Nat.lt_trans h1 h2
      | str t => rfl
    | str t =>
      cases c with
      | num p => simp [ntokLtb] at h2
      | str u => rfl
  | str s =>
    cases b with
    | num n => simp [ntokLtb] at h1
    | str t =>
      cases c with
      | num p => simp [ntokLtb] at h2
      | str u => exact lexLtb_trans charLtb charLtb_trans s.data t.data u.data h1 h2

theorem ntokLtb_trichotomy (a b : NTok) :
    ntokLtb a b = true ∨ a = b ∨ ntokLtb b a = true := by
  cases a with
  | num m =>
    cases b with
    | num n =>
      rcases Nat.lt_trichotomy m n with h | h | h
      · exact Or.inl (by simp [ntokLtb, h])
      · exact Or.inr (Or.inl (by rw [h]))
      · exact Or.inr (Or.inr (by simp [ntokLtb, h]))
    | str t => exact Or.inl rfl
  | str s =>
    cases b with
    | num n => exact Or.inr (Or.inr rfl)
    | str t =>
      rcases lexLtb_trichotomy charLtb charLtb_trichotomy s.data t.data with h | h | h
      · exact Or.inl h
      · refine Or.inr (Or.inl ?_)
        cases s; cases t
        simp only [String.data] at h
        rw [h]
      · exact Or.inr (Or.inr h)

theorem keyLtb_irrefl (k : List NTok) : keyLtb k k = false :=
  lexLtb_irrefl ntokLtb ntokLtb_irrefl k

theorem keyLtb_asymm (k1 k2 : List NTok) (h : keyLtb k1 k2 = true) :
    keyLtb k2 k1 = false :=
  lexLtb_asymm ntokLtb ntokLtb_irrefl ntokLtb_asymm k1 k2 h

theorem keyLtb_trans (k1 k2 k3 : List NTok) (h1 : keyLtb k1 k2 = true)
    (h2 : keyLtb k2 k3 = true) : keyLtb k1 k3 = true :=
  lexLtb_trans ntokLtb ntokLtb_trans k1 k2 k3 h1 h2

theorem keyLtb_trichotomy (k1 k2 : List NTok) :
    keyLtb k1 k2 = true ∨ k1 = k2 ∨ keyLtb k2 k1 = true :=
  lexLtb_trichotomy ntokLtb ntokLtb_trichotomy k1 k2

instance : IsTotal String natLe :=
  ⟨by
    intro p q
    unfold natLe
    rcases Bool.eq_false_or_eq_true (keyLtb (alphanum_key q) (alphanum_key p))
      with h | h
    · exact Or.inr (keyLtb_asymm _ _ h)
    · exact Or.inl h⟩

instance : IsTrans String natLe :=
  ⟨by
    intro p q r h1 h2
    rcases keyLtb_trichotomy (alphanum_key q) (alphanum_key p) with h | hEq | h
    · exact absurd h1 (by simp [h, natLe])
    · unfold natLe at h2 ⊢
      rw [← hEq]
      exact h2
    · have hne : keyLtb (alphanum_key r) (alphanum_key p) ≠ true := by
        intro htrue
        have := keyLtb_trans _ _ _ htrue h
        unfold natLe at h2
        rw [h2] at this
        exact Bool.false_ne_true this
      exact Bool.eq_false_iff.mpr hne⟩

/-- Stability of `natural_sort`: the paths whose key equals any fixed
`k` come out in their input order. -/
theorem natural_sort_stable (k : List NTok) (ps : List String) :
    (natural_sort ps).filter (fun p => decide (alphanum_key p = k)) =
      ps.filter (fun p => decide (alphanum_key p = k)) := by
  induction ps with
  | nil => rfl
  | cons a ps ih =>
    rw [show natural_sort (a :: ps) =
        List.orderedInsert natLe a (natural_sort ps) from rfl,
      List.orderedInsert_eq_take_drop, List.filter_append]
    by_cases hk : alphanum_key a = k
    · have hnil : ((natural_sort ps).takeWhile fun b => ¬ natLe a b).filter
          (fun p => decide (alphanum_key p = k)) = [] := by
        rw [List.filter_eq_nil_iff]
        intro b hb
        have hpb := List.mem_takeWhile_imp hb
        simp only [decide_eq_true_eq] at hpb ⊢
        intro hbk
        apply hpb
        unfold natLe
        rw [hbk, hk]
        exact keyLtb_irrefl k
      have hsplit : ((natural_sort ps).dropWhile fun b => ¬ natLe a b).filter
          (fun p => decide (alphanum_key p = k)) =
          ps.filter (fun p => decide (alphanum_key p = k)) := by
        rw [← ih, ← List.takeWhile_append_dropWhile
          (fun b => decide ¬ natLe a b) (natural_sort ps), List.filter_append,
          hnil, List.nil_append, List.takeWhile_append_dropWhile]
      rw [hnil, List.nil_append, List.filter_cons, List.filter_cons]
      simp only [decide_not] at hsplit ⊢
      simp [hk, hsplit]
    · have hsplit : ((natural_sort ps).takeWhile fun b => ¬ natLe a b).filter
            (fun p => decide (alphanum_key p = k)) ++
          ((natural_sort ps).dropWhile fun b => ¬ natLe a b).filter
            (fun p => decide (alphanum_key p = k)) =
          ps.filter (fun p => decide (alphanum_key p = k)) := by
        rw [← ih, ← List.filter_append, List.takeWhile_append_dropWhile]
      rw [List.filter_cons, List.filter_cons]
      simpa [hk] using hsplit

/-! ### Basic facts about the widget-row helpers -/

theorem itemAt_isSome_bounds (items : List String) (r : Int)
    (h : (itemAt items r).isSome = true) :
    0 ≤ r ∧ r < (items.length : Int) := by
  unfold itemAt at h
  split at h
  · simp at h
  · rename_i hr
    refine ⟨by omega, ?_⟩
    by_contra hlen
    rw [List.get?_eq_none.mpr (by omega)] at h
    simp at h

theorem normRow_eq_of_isSome (items : List String) (r : Int)
    (h : (itemAt items r).isSome = true) : normRow items r = r := by
  have hb := itemAt_isSome_bounds items r h
  unfold normRow
  exact if_pos hb

/-- C1: with unsaved edits and a current selection, a selection change
answered *Cancel* leaves the whole state unchanged: the current row is
reverted, and the current image name, image path, caption buffer, dirty
flag and filesystem keep their values. -/
theorem cancel_guard_state_unchanged (st : AppState) (j : Int) (ok : Bool)
    (hprev : (itemAt st.items st.currentRow).isSome = true)
    (hdirty : st.unsaved = true) :
    setCurrentRow st j .cancel ok = st := by
  obtain ⟨items, fm, row, nm, pth, buf, uns, fs⟩ := st
  simp only at hprev hdirty
  subst hdirty
  unfold setCurrentRow
  by_cases hj : normRow items j = row
  · rw [if_pos hj]
  · rw [if_neg hj]
    simp only [on_selection_changed, hprev, Bool.and_self, if_true, setRowBlocked,
      normRow_eq_of_isSome items row hprev]

/-- Witness for C1 at a concrete dirty two-image session. -/
theorem cancel_guard_state_unchanged_witness :
    setCurrentRow exSt 1 .cancel true = exSt :=
  cancel_guard_state_unchanged exSt 1 true (by decide) (by decide)

/-- C2: on a guarded navigation answered *Save*: a failed write aborts
exactly like *Cancel* (the whole state, including the dirty flag and the
buffer, is unchanged and the selection does not advance), while a
successful write stores the buffer at the old image's caption path,
clears the dirty flag, and completes the navigation: the row becomes
`j` and the target's caption is loaded. -/
theorem guarded_save_navigation (st : AppState) (j : Int)
    (nm prevName p q : String)
    (hprev : itemAt st.items st.currentRow = some prevName)
    (hdirty : st.unsaved = true)
    (hpath : st.currentImagePath = some p)
    (hj : itemAt st.items j = some nm)
    (hjne : j ≠ st.currentRow)
    (hmap : lookupAssoc st.fileMap nm = some q) :
    setCurrentRow st j .yes false = st ∧
    setCurrentRow st j .yes true =
      { st with
        currentRow := j,
        currentImageName := some nm,
        currentImagePath := some q,
        bufferText :=
          (match lookupAssoc (insertAssoc st.fs (withSuffixTxt p) st.bufferText)
              (withSuffixTxt q) with
            | some raw => String.mk (univNewlines raw.data)
            | none => ""),
        unsaved := false,
        fs := insertAssoc st.fs (withSuffixTxt p) st.bufferText } := by
  obtain ⟨items, fm, row, nm', pth, buf, uns, fs⟩ := st
  simp only at hprev hdirty hpath hj hjne hmap
  subst hdirty
  subst hpath
  have hjs : (itemAt items j).isSome = true := by rw [hj]; rfl
  have hps : (itemAt items row).isSome = true := by rw [hprev]; rfl
  have hnorm : normRow items j = j := normRow_eq_of_isSome _ _ hjs
  have hnormr : normRow items row = row := normRow_eq_of_isSome _ _ hps
  constructor
  · simp only [setCurrentRow, hnorm, if_neg hjne, on_selection_changed, hprev,
      Option.isSome_some, Bool.and_self, if_true, save_caption, Bool.false_eq_true,
      if_false, setRowBlocked, hnormr]
  · simp only [setCurrentRow, hnorm, if_neg hjne, on_selection_changed, hprev,
      Option.isSome_some, Bool.and_self, if_true, save_caption, selection_proceed,
      hj, hmap, load_caption]

/-- Witness for C2 at a concrete dirty two-image session. -/
theorem guarded_save_navigation_witness :
    setCurrentRow exSt 1 .yes false = exSt ∧
    setCurrentRow exSt 1 .yes true =
      { exSt with
        currentRow := 1,
        currentImageName := some "b.png",
        currentImagePath := some "d/b.png",
        bufferText :=
          (match lookupAssoc (insertAssoc exSt.fs (withSuffixTxt "d/a.png")
              exSt.bufferText) (withSuffixTxt "d/b.png") with
            | some raw => String.mk (univNewlines raw.data)
            | none => ""),
        unsaved := false,
        fs := insertAssoc exSt.fs (withSuffixTxt "d/a.png") exSt.bufferText } :=
  guarded_save_navigation exSt 1 "b.png" "a.png" "d/a.png" "d/b.png"
    (by decide) (by decide) (by decide) (by decide) (by decide) (by decide)

/-! ### Caption round-trip -/

theorem lookupAssoc_insertAssoc_self (m : List (String × String)) (k v : String) :
    lookupAssoc (insertAssoc m k v) k = some v := by
  induction m with
  | nil => simp [insertAssoc, lookupAssoc]
  | cons kv rest ih =>
    obtain ⟨k', v'⟩ := kv
    by_cases h : k' = k
    · subst h; simp [insertAssoc, lookupAssoc]
    · simp [insertAssoc, lookupAssoc, h, ih]

theorem univNewlines_eq_of_no_cr :
    ∀ l : List Char, (∀ c ∈ l, c ≠ '\r') → univNewlines l = l
  | [], _ => rfl
  | [c], h => by simp [univNewlines, h c (by simp)]
  | c1 :: c2 :: rest, h => by
    have h1 : c1 ≠ '\r' := h c1 (by simp)
    have hrest : ∀ c ∈ c2 :: rest, c ≠ '\r' :=
      fun c hc => h c (List.mem_cons_of_mem _ hc)
    simp [univNewlines, h1, univNewlines_eq_of_no_cr (c2 :: rest) hrest]

/-- C3 counterexample: the round trip is NOT the identity for every
string.  Saving `"a\rb"` and loading it back yields `"a\nb"`: the
text-mode read translates the carriage return. -/
theorem save_load_roundtrip_cr_counterexample :
    (load_caption (save_caption { emptySt with
        currentImagePath := some "img.png",
        bufferText := "a\rb",
        unsaved := true } true).2 "img.png").bufferText = "a\nb" ∧
    "a\nb" ≠ "a\rb" := by
  constructor
  · decide
  · decide

/-- C3 (amended): a successful save stores the buffer text verbatim at
the derived caption path, and loading the same image back returns the
universal-newline translation of that text — which is exactly the saved
text whenever it contains no carriage return (in particular for the
empty string and for text with embedded `"\n"`). -/
theorem save_load_roundtrip (st : AppState) (p t : String)
    (hpath : st.currentImagePath = some p)
    (hbuf : st.bufferText = t) :
    (save_caption st true).1 = true ∧
    (save_caption st true).2.fs = insertAssoc st.fs (withSuffixTxt p) t ∧
    (load_caption (save_caption st true).2 p).bufferText =
      String.mk (univNewlines t.data) ∧
    ((∀ c ∈ t.data, c ≠ '\r') →
      (load_caption (save_caption st true).2 p).bufferText = t) := by
  obtain ⟨items, fm, row, nm, pth, buf, uns, fs⟩ := st
  simp only at hpath hbuf
  subst hpath
  subst hbuf
  refine ⟨rfl, rfl, ?_, ?_⟩
  · simp [save_caption, load_caption, lookupAssoc_insertAssoc_self]
  · intro hnocr
    simp only [save_caption, load_caption, if_true, lookupAssoc_insertAssoc_self]
    rw [univNewlines_eq_of_no_cr _ hnocr]

/-- Witness for C3 (amended) on a concrete state with an embedded
newline in the caption. -/
theorem save_load_roundtrip_witness :
    (save_caption { emptySt with
        currentImagePath := some "img.png",
        bufferText := "cat\nmeow" } true).1 = true ∧
    (save_caption { emptySt with
        currentImagePath := some "img.png",
        bufferText := "cat\nmeow" } true).2.fs =
      insertAssoc emptySt.fs (withSuffixTxt "img.png") "cat\nmeow" ∧
    (load_caption (save_caption { emptySt with
        currentImagePath := some "img.png",
        bufferText := "cat\nmeow" } true).2 "img.png").bufferText =
      String.mk (univNewlines "cat\nmeow".data) ∧
    ((∀ c ∈ "cat\nmeow".data, c ≠ '\r') →
      (load_caption (save_caption { emptySt with
          currentImagePath := some "img.png",
          bufferText := "cat\nmeow" } true).2 "img.png").bufferText =
        "cat\nmeow") :=
  save_load_roundtrip { emptySt with
      currentImagePath := some "img.png",
      bufferText := "cat\nmeow" } "img.png" "cat\nmeow" rfl rfl

/-! ### Helper lemmas: map building, rows, and frame facts -/

theorem lookupAssoc_insertAssoc (m : List (String × String)) (k v k' : String) :
    lookupAssoc (insertAssoc m k v) k' =
      if k = k' then some v else lookupAssoc m k' := by
  induction m with
  | nil => by_cases h : k = k' <;> simp [insertAssoc, lookupAssoc, h]
  | cons kv rest ih =>
    obtain ⟨k1, v1⟩ := kv
    by_cases h1 : k1 = k
    · subst h1
      by_cases h2 : k1 = k' <;> simp [insertAssoc, lookupAssoc, h2]
    · by_cases h2 : k1 = k'
      · subst h2
        have : ¬ k = k1 := fun h => h1 h.symm
        simp [insertAssoc, lookupAssoc, h1, this]
      · simp [insertAssoc, lookupAssoc, h1, h2, ih]

theorem getLast?_cons_or {α : Type} (p : α) (l : List α) :
    (p :: l).getLast? = Option.or l.getLast? (some p) := by
  cases l with
  | nil => rfl
  | cons q qs =>
    rw [List.getLast?_cons_cons]
    obtain ⟨v, hv⟩ := Option.isSome_iff_exists.mp
      (List.getLast?_isSome.mpr (List.cons_ne_nil q qs))
    rw [hv]
    rfl

/-- The `file_map` as built by the `open_images` loop: looking up a name
returns the LAST path in the list whose basename is that name (later
iterations overwrite earlier ones). -/
theorem lookupAssoc_foldl_insert (ps : List String) (m : List (String × String))
    (k : String) :
    lookupAssoc (ps.foldl (fun acc fp => insertAssoc acc (basename fp) fp) m) k =
      Option.or ((ps.filter (fun fp => decide (basename fp = k))).getLast?)
        (lookupAssoc m k) := by
  induction ps generalizing m with
  | nil => simp [Option.none_or]
  | cons p ps ih =>
    rw [List.foldl_cons, ih]
    by_cases hp : basename p = k
    · rw [List.filter_cons_of_pos (by simp [hp]), getLast?_cons_or,
        Option.or_assoc, lookupAssoc_insertAssoc]
      rw [if_pos hp]
      rfl
    · rw [List.filter_cons_of_neg (by simp [hp]), lookupAssoc_insertAssoc,
        if_neg hp]

theorem lookup_buildMap_isSome (ps : List String) (p : String) (hp : p ∈ ps) :
    (lookupAssoc (ps.foldl (fun acc fp => insertAssoc acc (basename fp) fp) [])
      (basename p)).isSome = true := by
  rw [lookupAssoc_foldl_insert]
  have hmem : p ∈ ps.filter (fun fp => decide (basename fp = basename p)) :=
    List.mem_filter.mpr ⟨hp, by simp⟩
  obtain ⟨v, hv⟩ := Option.isSome_iff_exists.mp
    (List.getLast?_isSome.mpr (List.ne_nil_of_mem hmem))
  rw [hv]
  rfl

theorem normRow_nil (j : Int) : normRow ([] : List String) j = -1 := by
  unfold normRow
  split
  · rename_i h
    simp at h
    omega
  · rfl

theorem normRow_zero (items : List String) (h : items ≠ []) :
    normRow items 0 = 0 := by
  unfold normRow
  rw [if_pos]
  refine ⟨le_refl 0, ?_⟩
  have := List.length_pos.mpr h
  omega

theorem itemAt_neg (items : List String) (r : Int) (h : r < 0) :
    itemAt items r = none := by
  unfold itemAt
  exact if_pos h

theorem itemAt_zero_cons (n : String) (rest : List String) :
    itemAt (n :: rest) 0 = some n := rfl

theorem selection_proceed_unsaved (st : AppState) (cur : Option String)
    (h : st.unsaved = false) : (selection_proceed st cur).unsaved = false := by
  cases cur with
  | none => simp [selection_proceed, clear_image_and_caption, on_text_changed]
  | some name =>
    simp only [selection_proceed]
    cases hl : lookupAssoc st.fileMap name with
    | none => exact h
    | some path => simp [load_caption]

theorem selection_proceed_frame (st : AppState) (cur : Option String) :
    (selection_proceed st cur).items = st.items ∧
    (selection_proceed st cur).fileMap = st.fileMap ∧
    (selection_proceed st cur).currentRow = st.currentRow ∧
    (selection_proceed st cur).fs = st.fs := by
  cases cur with
  | none => simp [selection_proceed, clear_image_and_caption, on_text_changed]
  | some name =>
    simp only [selection_proceed]
    cases hl : lookupAssoc st.fileMap name with
    | none => exact ⟨rfl, rfl, rfl, rfl⟩
    | some path => simp [load_caption]

theorem listClear_frame (st : AppState) (ans : PromptAnswer) (ok : Bool) :
    (listClear st ans ok).items = [] ∧ (listClear st ans ok).currentRow = -1 := by
  obtain ⟨items, fm, row, nm, pth, buf, uns, fs⟩ := st
  unfold listClear
  by_cases h : (itemAt items row).isSome = true
  · rw [if_pos h]
    unfold on_selection_changed
    cases uns
    · simp [selection_proceed, clear_image_and_caption, on_text_changed]
    · simp only [h, Bool.and_self, if_true]
      cases ans
      · cases pth
        · simp [save_caption, setRowBlocked, normRow_nil]
        · cases ok
          · simp [save_caption, setRowBlocked, normRow_nil]
          · simp [save_caption, selection_proceed, clear_image_and_caption,
              on_text_changed]
      · simp [selection_proceed, clear_image_and_caption, on_text_changed]
      · simp [setRowBlocked, normRow_nil]
  · rw [if_neg h]
    exact ⟨rfl, rfl⟩

theorem open_images_core (st : AppState) (selected : List String)
    (ans : PromptAnswer) (ok : Bool) (h : selected ≠ []) :
    (open_images st selected ans ok).items = (natural_sort selected).map basename ∧
    (open_images st selected ans ok).fileMap =
      (natural_sort selected).foldl
        (fun m fp => insertAssoc m (basename fp) fp) [] ∧
    (open_images st selected ans ok).currentRow = 0 ∧
    (open_images st selected ans ok).unsaved = false := by
  have hlen : (natural_sort selected).length = selected.length :=
    (List.perm_insertionSort natLe selected).length_eq
  cases hs : natural_sort selected with
  | nil =>
    rw [hs] at hlen
    exact absurd (List.length_eq_zero.mp hlen.symm) h
  | cons s0 srest =>
    obtain ⟨q0, hq0⟩ := Option.isSome_iff_exists.mp
      (lookup_buildMap_isSome (s0 :: srest) s0 (List.mem_cons_self s0 srest))
    obtain ⟨hci, hcr⟩ := listClear_frame { st with fileMap := [] } ans ok
    unfold open_images
    rw [if_neg (by simp [List.isEmpty_iff, h])]
    simp only [hs]
    rw [if_pos (by simp)]
    unfold setCurrentRow
    rw [show normRow ((s0 :: srest).map basename) 0 = 0 from
      normRow_zero _ (by simp), hcr]
    rw [if_neg (by decide)]
    unfold on_selection_changed
    have hneg : itemAt (basename s0 :: srest.map basename) (-1) = none :=
      itemAt_neg _ _ (by decide)
    simp only [List.map_cons, hneg, Option.isSome_none, Bool.false_and,
      Bool.false_eq_true, if_false, itemAt_zero_cons, selection_proceed, hq0,
      load_caption]
    exact ⟨trivial, trivial, trivial, trivial⟩

/-- C4: the dirty flag invariant.  After a completed (non-empty) Open,
`unsaved` is false; any `textChanged` edit event sets it
unconditionally; a `save_caption` call that returns success clears it;
and a guarded navigation resolved by *Discard* (answer No) ends with it
cleared. -/
theorem dirty_flag_invariant :
    (∀ (st : AppState) (selected : List String) (ans : PromptAnswer) (ok : Bool),
      selected ≠ [] → (open_images st selected ans ok).unsaved = false) ∧
    (∀ (st : AppState) (t : String), (editBuffer st t).unsaved = true) ∧
    (∀ (st : AppState) (ok : Bool),
      (save_caption st ok).1 = true → (save_caption st ok).2.unsaved = false) ∧
    (∀ (st : AppState) (j : Int) (ok : Bool),
      st.unsaved = true →
      (itemAt st.items st.currentRow).isSome = true →
      normRow st.items j ≠ st.currentRow →
      (setCurrentRow st j .no ok).unsaved = false) := by
  refine ⟨?_, ?_, ?_, ?_⟩
  · intro st selected ans ok h
    exact (open_images_core st selected ans ok h).2.2.2
  · intro st t
    rfl
  · intro st ok h
    obtain ⟨items, fm, row, nm, pth, buf, uns, fs⟩ := st
    cases pth with
    | none => simp [save_caption] at h
    | some p =>
      cases ok with
      | false => simp [save_caption] at h
      | true => simp [save_caption]
  · intro st j ok hu hp hne
    unfold setCurrentRow
    rw [if_neg hne]
    unfold on_selection_changed
    simp only [hp, hu, Bool.and_self, if_true]
    exact selection_proceed_unsaved _ _ rfl

/-- Witness for C4 at concrete states: a two-path Open, an edit, a
successful save, and a Discard-resolved navigation. -/
theorem dirty_flag_invariant_witness :
    (open_images emptySt ["d/b.png", "d/a.png"] .no true).unsaved = false ∧
    (editBuffer exSt "cat").unsaved = true ∧
    (save_caption exSt true).2.unsaved = false ∧
    (setCurrentRow exSt 1 .no true).unsaved = false :=
  ⟨dirty_flag_invariant.1 emptySt ["d/b.png", "d/a.png"] .no true (by decide),
   dirty_flag_invariant.2.1 exSt "cat",
   dirty_flag_invariant.2.2.1 exSt true (by decide),
   dirty_flag_invariant.2.2.2 exSt 1 true (by decide) (by decide) (by decide)⟩

/-- C5: `_navigate` computes `clamp(currentRow + step, 0, count-1)` on a
non-empty list; when the clamped target equals the current row the call
is a complete no-op — the state is returned unchanged for every prompt
answer and write outcome (so no guard fires and nothing reloads) — and
otherwise it delegates to the selection change on the target row. -/
theorem navigate_clamp_noop (st : AppState) (step : Int) (ans : PromptAnswer)
    (ok : Bool) (hne : st.items ≠ []) :
    (max 0 (min (st.currentRow + step) ((st.items.length : Int) - 1)) =
        st.currentRow →
      navigate st step ans ok = st) ∧
    (max 0 (min (st.currentRow + step) ((st.items.length : Int) - 1)) ≠
        st.currentRow →
      navigate st step ans ok =
        setCurrentRow st
          (max 0 (min (st.currentRow + step) ((st.items.length : Int) - 1)))
          ans ok) := by
  have hlen : ((st.items.length : Nat) : Int) ≠ 0 := by
    have := List.length_pos.mpr hne
    omega
  constructor
  · intro h
    unfold navigate
    rw [if_neg hlen, if_neg (by simp [h])]
  · intro h
    unfold navigate
    rw [if_neg hlen, if_pos h]

/-- Witness for C5: on the two-image state at row 0, `Navigate(-1)`
clamps to row 0 and is a no-op even though the state is dirty, while
`Navigate(+1)` delegates to the row change. -/
theorem navigate_clamp_noop_witness :
    navigate exSt (-1) .cancel true = exSt ∧
    navigate exSt 1 .cancel true =
      setCurrentRow exSt
        (max 0 (min (exSt.currentRow + 1) ((exSt.items.length : Int) - 1)))
        .cancel true :=
  ⟨(navigate_clamp_noop exSt (-1) .cancel true (by decide)).1 (by decide),
   (navigate_clamp_noop exSt 1 .cancel true (by decide)).2 (by decide)⟩

/-- C10: on a non-empty list with no current row (`currentRow = -1`),
`_navigate` with step `+1` or `-1` is not a no-op: the clamp evaluates
to `0` in both cases and the current row becomes `0`. -/
theorem navigate_from_no_selection (st : AppState) (step : Int)
    (ans : PromptAnswer) (ok : Bool) (hne : st.items ≠ [])
    (hrow : st.currentRow = -1) (hstep : step = 1 ∨ step = -1) :
    navigate st step ans ok = setCurrentRow st 0 ans ok ∧
    (navigate st step ans ok).currentRow = 0 := by
  have hpos : 0 < ((st.items.length : Nat) : Int) := by
    have := List.length_pos.mpr hne
    omega
  have hnew : max 0 (min (st.currentRow + step) ((st.items.length : Int) - 1))
      = 0 := by
    rcases hstep with rfl | rfl <;> rw [hrow] <;> omega
  have hnav : navigate st step ans ok = setCurrentRow st 0 ans ok := by
    unfold navigate
    rw [if_neg (by omega), if_pos (by rw [hnew, hrow]; decide), hnew]
  refine ⟨hnav, ?_⟩
  rw [hnav]
  unfold setCurrentRow
  rw [normRow_zero _ hne]
  rw [if_neg (by rw [hrow]; decide)]
  unfold on_selection_changed
  rw [hrow, itemAt_neg _ _ (by decide)]
  simp only [Option.isSome_none, Bool.false_and, Bool.false_eq_true, if_false]
  exact (selection_proceed_frame _ _).2.2.1

/-- Witness for C10 on the two-image state with the selection cleared. -/
theorem navigate_from_no_selection_witness :
    navigate { exSt with currentRow := -1 } 1 .cancel true =
      setCurrentRow { exSt with currentRow := -1 } 0 .cancel true ∧
    (navigate { exSt with currentRow := -1 } 1 .cancel true).currentRow = 0 :=
  navigate_from_no_selection { exSt with currentRow := -1 } 1 .cancel true
    (by decide) rfl (Or.inl rfl)

/-- C8: with an empty list (and hence no current row and no current
image), `_navigate` returns immediately, a row change is a no-op, and
`save_caption` performs no filesystem write and returns failure. -/
theorem empty_entries_noop (st : AppState) (step j : Int) (ans : PromptAnswer)
    (ok : Bool) (hitems : st.items = []) (hrow : st.currentRow = -1)
    (hpath : st.currentImagePath = none) :
    navigate st step ans ok = st ∧
    setCurrentRow st j ans ok = st ∧
    save_caption st ok = (false, st) := by
  obtain ⟨items, fm, row, nm, pth, buf, uns, fs⟩ := st
  simp only at hitems hrow hpath
  subst hitems
  subst hrow
  subst hpath
  refine ⟨rfl, ?_, rfl⟩
  unfold setCurrentRow
  rw [normRow_nil, if_pos rfl]

/-- Witness for C8 at the freshly started empty session. -/
theorem empty_entries_noop_witness :
    navigate emptySt 1 .yes true = emptySt ∧
    setCurrentRow emptySt 3 .yes true = emptySt ∧
    save_caption emptySt true = (false, emptySt) :=
  empty_entries_noop emptySt 1 3 .yes true rfl rfl rfl

/-- C9: when the newly selected item's text is not a key of `file_map`,
the handler returns right after the guard (whenever the guard lets it
proceed: no previous item, not dirty, answer Discard, or answer Save
with a succeeding write): the current image name, current image path and
the caption buffer are unchanged, while the widget's row has already
moved to the new item. -/
theorem unknown_name_early_return (st : AppState) (j : Int) (ans : PromptAnswer)
    (ok : Bool) (nm : String)
    (hj : itemAt st.items (normRow st.items j) = some nm)
    (hmap : lookupAssoc st.fileMap nm = none)
    (hproceed : (itemAt st.items st.currentRow).isSome = false ∨
      st.unsaved = false ∨ ans = .no ∨
      (ans = .yes ∧ ok = true ∧ st.currentImagePath.isSome = true)) :
    (setCurrentRow st j ans ok).currentImageName = st.currentImageName ∧
    (setCurrentRow st j ans ok).currentImagePath = st.currentImagePath ∧
    (setCurrentRow st j ans ok).bufferText = st.bufferText ∧
    (setCurrentRow st j ans ok).currentRow = normRow st.items j := by
  obtain ⟨items, fm, row, nm0, pth, buf, uns, fs⟩ := st
  simp only at hj hmap hproceed ⊢
  unfold setCurrentRow
  by_cases hjr : normRow items j = row
  · rw [if_pos hjr]
    exact ⟨rfl, rfl, rfl, hjr.symm⟩
  · rw [if_neg hjr]
    unfold on_selection_changed
    by_cases hg : ((itemAt items row).isSome && uns) = true
    · rw [if_pos hg]
      rw [Bool.and_eq_true] at hg
      rcases hproceed with hp1 | hp2 | rfl | ⟨rfl, rfl, hps⟩
      · exact absurd hg.1 (by simp [hp1])
      · exact absurd hg.2 (by simp [hp2])
      · simp only [selection_proceed, hj, hmap]
        refine ⟨?_, ?_, ?_, ?_⟩ <;> trivial
      · obtain ⟨p, rfl⟩ := Option.isSome_iff_exists.mp hps
        simp only [save_caption, if_true, selection_proceed, hj, hmap]
        refine ⟨?_, ?_, ?_, ?_⟩ <;> trivial
    · rw [if_neg hg]
      simp only [selection_proceed, hj, hmap]
      refine ⟨?_, ?_, ?_, ?_⟩ <;> trivial

/-- Witness for C9: a clean session whose map was emptied, selecting the
second item. -/
theorem unknown_name_early_return_witness :
    (setCurrentRow { exSt with fileMap := [], unsaved := false } 1 .cancel
        true).currentImageName =
      ({ exSt with fileMap := [], unsaved := false } : AppState).currentImageName ∧
    (setCurrentRow { exSt with fileMap := [], unsaved := false } 1 .cancel
        true).currentImagePath =
      ({ exSt with fileMap := [], unsaved := false } : AppState).currentImagePath ∧
    (setCurrentRow { exSt with fileMap := [], unsaved := false } 1 .cancel
        true).bufferText =
      ({ exSt with fileMap := [], unsaved := false } : AppState).bufferText ∧
    (setCurrentRow { exSt with fileMap := [], unsaved := false } 1 .cancel
        true).currentRow =
      normRow ({ exSt with fileMap := [], unsaved := false } : AppState).items 1 :=
  unknown_name_early_return { exSt with fileMap := [], unsaved := false } 1
    .cancel true "b.png" (by decide) (by decide) (Or.inr (Or.inl (by decide)))

/-- C6: `natural_sort` is a permutation of its input, sorted with
respect to the alphanum-key order (digit runs as integers, non-digit
runs lower-cased, lexicographically over the token list of the
basename), stable (equal keys keep input order), and `file2` sorts
before `file10`. -/
theorem natural_sort_correct :
    (∀ ps : List String, (natural_sort ps).Perm ps) ∧
    (∀ ps : List String, (natural_sort ps).Sorted natLe) ∧
    (∀ (k : List NTok) (ps : List String),
      (natural_sort ps).filter (fun p => decide (alphanum_key p = k)) =
        ps.filter (fun p => decide (alphanum_key p = k))) ∧
    natural_sort ["file10", "file2"] = ["file2", "file10"] := by
  refine ⟨?_, ?_, natural_sort_stable, by decide⟩
  · exact fun ps => List.perm_insertionSort natLe ps
  · exact fun ps => List.sorted_insertionSort natLe ps

/-- C7 counterexample: `open_images` does NOT deduplicate the entries
collection by basename.  Opening two paths that share the basename
`x.png` produces a two-row list (the same name twice); only the
name-to-path map is collapsed, keyed last-wins. -/
theorem open_dedup_counterexample :
    (open_images emptySt ["a/x.png", "b/x.png"] .no true).items =
      ["x.png", "x.png"] ∧
    ¬ (open_images emptySt ["a/x.png", "b/x.png"] .no true).items.Nodup ∧
    (open_images emptySt ["a/x.png", "b/x.png"] .no true).fileMap =
      [("x.png", "b/x.png")] := by
  refine ⟨by decide, by decide, by decide⟩

/-- C7 (amended): a non-empty Open replaces the item list with the
natural-sorted input's basenames — one row per input path, duplicates
kept — while the name-to-path map is deduplicated by basename with the
last occurrence (in sorted order) winning; the current row becomes 0 and
the dirty flag is cleared. -/
theorem open_images_spec (st : AppState) (selected : List String)
    (ans : PromptAnswer) (ok : Bool) (h : selected ≠ []) :
    (open_images st selected ans ok).items =
      (natural_sort selected).map basename ∧
    (∀ name : String,
      lookupAssoc (open_images st selected ans ok).fileMap name =
        ((natural_sort selected).filter
          (fun fp => decide (basename fp = name))).getLast?) ∧
    (open_images st selected ans ok).currentRow = 0 ∧
    (open_images st selected ans ok).unsaved = false := by
  obtain ⟨h1, h2, h3, h4⟩ := open_images_core st selected ans ok h
  refine ⟨h1, ?_, h3, h4⟩
  intro name
  rw [h2, lookupAssoc_foldl_insert]
  simp [lookupAssoc, Option.or_none]

/-- Witness for C7 (amended) on the duplicate-basename example. -/
theorem open_images_spec_witness :
    (open_images emptySt ["a/x.png", "b/x.png"] .no true).items =
      (natural_sort ["a/x.png", "b/x.png"]).map basename ∧
    lookupAssoc (open_images emptySt ["a/x.png", "b/x.png"] .no true).fileMap
        "x.png" =
      ((natural_sort ["a/x.png", "b/x.png"]).filter
        (fun fp => decide (basename fp = "x.png"))).getLast? ∧
    (open_images emptySt ["a/x.png", "b/x.png"] .no true).currentRow = 0 ∧
    (open_images emptySt ["a/x.png", "b/x.png"] .no true).unsaved = false :=
  ⟨(open_images_spec emptySt ["a/x.png", "b/x.png"] .no true (by decide)).1,
   (open_images_spec emptySt ["a/x.png", "b/x.png"] .no true (by decide)).2.1
     "x.png",
   (open_images_spec emptySt ["a/x.png", "b/x.png"] .no true (by decide)).2.2.1,
   (open_images_spec emptySt ["a/x.png", "b/x.png"] .no true (by decide)).2.2.2⟩
